import Mathlib

set_option maxHeartbeats 1000000

namespace PtrGuard

/-- Foreign memory, one machine word per address; the value 0 models the nil
pointer that clear writes back. -/
abbrev Mem := Nat → Nat

/-- Panics the package can raise: ErrInvalidPinner thrown by finishedType.check,
the Go runtime panic for unlocking an unlocked mutex, and an arbitrary panic
raised inside a user callback (its payload abstracted to a number). -/
inductive PGErr where
  | invalidPinner
  | unlockOfUnlockedMutex
  | userPanic (code : Nat)
deriving DecidableEq

/-- finishedType.check from ptrguard.go: panic with ErrInvalidPinner when the
finished flag is set. -/
def finishedType.check (finished : Bool) : Except PGErr Unit :=
  if finished then .error .invalidPinner else .ok ()

/-- refsType.poke from ptrguard.go: append the target slot to the refs list and
write the pinned address into the slot. -/
def refsType.poke (refs : List Nat) (ptr target : Nat) (mem : Mem) : List Nat × Mem :=
  (refs ++ [target], fun a => if a = target then ptr else mem a)

/-- refsType.clear from ptrguard.go: walk the recorded slots in order, writing 0
into each one (a slot recorded twice is written twice). -/
def refsType.clear (refs : List Nat) (mem : Mem) : Mem :=
  refs.foldl (fun m r => fun a => if a = r then 0 else m a) mem

/-- Observable events of a release, listed in the order the code performs
them. -/
inductive Event where
  | zeroSlot (a : Nat)
  | releaseSignal
  | releaseConfirm
deriving DecidableEq

/-- PinnedPtr from ptrguard.go: the pinned address, the release mutex (true
means locked), whether the pinning goroutine still holds the address, and the
embedded refsType and finishedType state. -/
structure PinnedPtr where
  ptr : Nat
  release : Bool
  pinnedWorker : Bool
  refs : List Nat
  finished : Bool
deriving DecidableEq

/-- Pin from ptrguard.go: lock the release mutex, start the pinning goroutine,
wait for its pinned signal and record the address. -/
def Pin (ptr : Nat) : PinnedPtr :=
  { ptr := ptr, release := true, pinnedWorker := true, refs := [], finished := false }

/-- PinnedPtr.Poke from ptrguard.go: check, then refsType.poke of the pinned
address into the target slot. -/
def PinnedPtr.Poke (p : PinnedPtr) (mem : Mem) (target : Nat) :
    Except PGErr (PinnedPtr × Mem) := do
  finishedType.check p.finished
  let pair := refsType.poke p.refs p.ptr target mem
  .ok ({ p with refs := pair.1 }, pair.2)

/-- PinnedPtr.Unpin from ptrguard.go: check, set finished, clear all poked
slots, unlock the release mutex (the release signal; unlocking an unlocked
mutex, as on a never pinned zero value, is a runtime panic), then wait for the
released signal from the goroutine. The event list returned with the result
records the order of these effects. -/
def PinnedPtr.Unpin (p : PinnedPtr) (mem : Mem) :
    Except PGErr (PinnedPtr × Mem × List Event) := do
  finishedType.check p.finished
  let m1 := refsType.clear p.refs mem
  let ev := p.refs.map Event.zeroSlot
  if p.release then
    .ok ({ p with finished := true, release := false, refs := [], pinnedWorker := false },
         m1, ev ++ [Event.releaseSignal, Event.releaseConfirm])
  else
    .error .unlockOfUnlockedMutex

/-- pinnerData from ptrguard.go: the release RWMutex (true means write locked),
the WaitGroup counter, and the embedded refsType and finishedType state. -/
structure pinnerData where
  release : Bool
  pending : Nat
  refs : List Nat
  finished : Bool
deriving DecidableEq

/-- ScopedPinnedPtr from ptrguard.go: the pinned address; the owning pinner is
threaded separately as explicit state. -/
structure ScopedPinnedPtr where
  ptr : Nat
deriving DecidableEq

/-- Pinner.Pin from ptrguard.go: check, wg.Add(1), start the pinning goroutine
and block until its pinned signal, returning the scoped handle. -/
def Pinner.Pin (v : pinnerData) (ptr : Nat) : Except PGErr (pinnerData × ScopedPinnedPtr) := do
  finishedType.check v.finished
  .ok ({ v with pending := v.pending + 1 }, ⟨ptr⟩)

/-- ScopedPinnedPtr.Poke from ptrguard.go: check on the owning pinner, then
refsType.poke into the pinner refs list. -/
def ScopedPinnedPtr.Poke (pinned : ScopedPinnedPtr) (v : pinnerData) (mem : Mem) (target : Nat) :
    Except PGErr (pinnerData × Mem) := do
  finishedType.check v.finished
  let pair := refsType.poke v.refs pinned.ptr target mem
  .ok ({ v with refs := pair.1 }, pair.2)

/-- pinnerData.unpin from ptrguard.go: check, set finished, clear all poked
slots, unlock the release RWMutex (the broadcast; a runtime panic when it is
not locked), then wg.Wait until every pinning goroutine has confirmed
release. -/
def pinnerData.unpin (v : pinnerData) (mem : Mem) :
    Except PGErr (pinnerData × Mem × List Event) := do
  finishedType.check v.finished
  let m1 := refsType.clear v.refs mem
  let ev := v.refs.map Event.zeroSlot
  if v.release then
    .ok ({ v with finished := true, release := false, refs := [], pending := 0 },
         m1, ev ++ [Event.releaseSignal, Event.releaseConfirm])
  else
    .error .unlockOfUnlockedMutex

/-- Scope from ptrguard.go: allocate a fresh pinnerData with the release mutex
locked, run the body (modelled by its final state and optional panic), and call
unpin only on the normal path; there is no defer, so a body panic propagates
without running unpin. -/
def Scope (f : pinnerData → Mem → pinnerData × Mem × Option PGErr) (mem : Mem) :
    pinnerData × Mem × Option PGErr :=
  let v0 : pinnerData := { release := true, pending := 0, refs := [], finished := false }
  match f v0 mem with
  | (v, m, some e) => (v, m, some e)
  | (v, m, none) =>
    match pinnerData.unpin v m with
    | .ok (v2, m2, _) => (v2, m2, none)
    | .error e => (v, m, some e)

/-- NoCheck from ptrguard.go, first statement: atomic.SwapInt32(cgocheck, 0)
returns the previous cell value and leaves the cell 0. -/
def ncEnter (cgocheck : Int) : Int × Int := (cgocheck, 0)

/-- NoCheck from ptrguard.go, last statement: atomic.StoreInt32(cgocheck,
cgocheckOld) overwrites the cell with the value this call saved, regardless of
what the cell holds now. -/
def ncExit (cgocheckOld : Int) (_cgocheck : Int) : Int := cgocheckOld

/-- NoCheck from ptrguard.go as one call: swap the cell to 0, run the callback
(modelled by its panic outcome; the callback itself does not write the cell),
and execute the restoring store only on the normal path, since there is no
defer. -/
def NoCheck (cgocheck : Int) (fres : Option PGErr) : Int × Option PGErr :=
  let s := ncEnter cgocheck
  match fres with
  | some e => (s.2, some e)
  | none => (ncExit s.1 s.2, none)

/-- Runs a further sequence of completed NoCheck calls, observing the cell. -/
def runNoChecks (cgocheck : Int) (calls : List (Option PGErr)) : Int :=
  calls.foldl (fun c f => (NoCheck c f).1) cgocheck

/-- Folds PinnedPtr.Poke over a list of target slots. -/
def pokeAll : PinnedPtr → Mem → List Nat → Except PGErr (PinnedPtr × Mem)
  | p, mem, [] => .ok (p, mem)
  | p, mem, t :: ts => do
    let pm ← p.Poke mem t
    pokeAll pm.1 pm.2 ts

/-- Folds ScopedPinnedPtr.Poke over a list of target slots. -/
def scopedPokeAll (pinned : ScopedPinnedPtr) : pinnerData → Mem → List Nat → Except PGErr (pinnerData × Mem)
  | v, mem, [] => .ok (v, mem)
  | v, mem, t :: ts => do
    let vm ← pinned.Poke v mem t
    scopedPokeAll pinned vm.1 vm.2 ts

/-- Memory with every cell zero, used for concrete runs. -/
def mem0 : Mem := fun _ => 0

/-- Sequencing a successful check is the identity on the rest of the body. -/
lemma check_ok_seq {α : Type} (x : Except PGErr α) :
    ((Except.ok () : Except PGErr Unit) >>= fun _ => x) = x := rfl

/-- Sequencing a panicking check short-circuits the rest of the body. -/
lemma check_error_seq {α : Type} (e : PGErr) (f : Unit → Except PGErr α) :
    ((Except.error e : Except PGErr Unit) >>= f) = Except.error e := rfl

/-- Pointwise description of refsType.clear: a recorded slot reads 0, any other
address is untouched. -/
lemma clear_apply (R : List Nat) (m : Mem) (a : Nat) :
    refsType.clear R m a = if a ∈ R then 0 else m a := by
  induction R generalizing m with
  | nil => simp [refsType.clear]
  | cons r R ih =>
    show refsType.clear R (fun x => if x = r then 0 else m x) a = _
    rw [ih]
    by_cases h1 : a ∈ R <;> by_cases h2 : a = r <;> simp [h1, h2]

/-- Running pokeAll on an unfinished handle succeeds, records exactly the new
slots after the old ones, writes the pinned address into every new slot and
changes nothing else. -/
lemma pokeAll_spec (ts : List Nat) : ∀ (p : PinnedPtr) (mem : Mem), p.finished = false →
    ∃ q m2, pokeAll p mem ts = .ok (q, m2)
      ∧ q.ptr = p.ptr ∧ q.finished = false ∧ q.release = p.release
      ∧ q.pinnedWorker = p.pinnedWorker ∧ q.refs = p.refs ++ ts
      ∧ ∀ a, m2 a = if a ∈ ts then p.ptr else mem a := by
  induction ts with
  | nil =>
    intro p mem h
    exact ⟨p, mem, rfl, rfl, h, rfl, rfl, by simp, by simp⟩
  | cons t ts ih =>
    intro p mem h
    have hstep : p.Poke mem t =
        .ok ({ p with refs := p.refs ++ [t] }, fun a => if a = t then p.ptr else mem a) := by
      simp [PinnedPtr.Poke, finishedType.check, refsType.poke, h, check_ok_seq]
    obtain ⟨q, m2, hrun, hptr, hfin, hrel, hwork, hrefs, hmem⟩ :=
      ih { p with refs := p.refs ++ [t] } (fun a => if a = t then p.ptr else mem a) h
    refine ⟨q, m2, ?_, hptr, hfin, hrel, hwork, ?_, ?_⟩
    · show (do
        let pm ← p.Poke mem t
        pokeAll pm.1 pm.2 ts) = Except.ok (q, m2)
      rw [hstep]
      exact hrun
    · rw [hrefs]
      simp
    · intro a
      rw [hmem a]
      by_cases h1 : a ∈ ts <;> by_cases h2 : a = t <;> simp [h1, h2]

/-- Counterpart of pokeAll_spec for a scoped handle poking into its pinner. -/
lemma scopedPokeAll_spec (ts : List Nat) :
    ∀ (sp : ScopedPinnedPtr) (v : pinnerData) (mem : Mem), v.finished = false →
    ∃ w m2, scopedPokeAll sp v mem ts = .ok (w, m2)
      ∧ w.finished = false ∧ w.release = v.release ∧ w.pending = v.pending
      ∧ w.refs = v.refs ++ ts
      ∧ ∀ a, m2 a = if a ∈ ts then sp.ptr else mem a := by
  induction ts with
  | nil =>
    intro sp v mem h
    exact ⟨v, mem, rfl, h, rfl, rfl, by simp, by simp⟩
  | cons t ts ih =>
    intro sp v mem h
    have hstep : sp.Poke v mem t =
        .ok ({ v with refs := v.refs ++ [t] }, fun a => if a = t then sp.ptr else mem a) := by
      simp [ScopedPinnedPtr.Poke, finishedType.check, refsType.poke, h, check_ok_seq]
    obtain ⟨w, m2, hrun, hfin, hrel, hpend, hrefs, hmem⟩ :=
      ih sp { v with refs := v.refs ++ [t] } (fun a => if a = t then sp.ptr else mem a) h
    refine ⟨w, m2, ?_, hfin, hrel, hpend, ?_, ?_⟩
    · show (do
        let vm ← sp.Poke v mem t
        scopedPokeAll sp vm.1 vm.2 ts) = Except.ok (w, m2)
      rw [hstep]
      exact hrun
    · rw [hrefs]
      simp
    · intro a
      rw [hmem a]
      by_cases h1 : a ∈ ts <;> by_cases h2 : a = t <;> simp [h1, h2]

/-- Unpinning an unfinished, release-locked PinnedPtr succeeds and zeroes every
recorded slot. -/
lemma unpin_spec (p : PinnedPtr) (mem : Mem) (hfin : p.finished = false)
    (hrel : p.release = true) :
    p.Unpin mem =
      .ok ({ p with finished := true, release := false, refs := [], pinnedWorker := false },
           refsType.clear p.refs mem,
           p.refs.map Event.zeroSlot ++ [Event.releaseSignal, Event.releaseConfirm]) := by
  simp [PinnedPtr.Unpin, finishedType.check, hfin, hrel, check_ok_seq]

/-- Unpinning an unfinished, release-locked pinnerData succeeds and zeroes every
recorded slot. -/
lemma pinner_unpin_spec (v : pinnerData) (mem : Mem) (hfin : v.finished = false)
    (hrel : v.release = true) :
    v.unpin mem =
      .ok ({ v with finished := true, release := false, refs := [], pending := 0 },
           refsType.clear v.refs mem,
           v.refs.map Event.zeroSlot ++ [Event.releaseSignal, Event.releaseConfirm]) := by
  simp [pinnerData.unpin, finishedType.check, hfin, hrel, check_ok_seq]

/-- C1: for every pinned handle, PinnedPtr or ScopedPinnedPtr, and every
sequence of K >= 1 Poke calls made while it is pinned, each Poke writes the
pinned address into its target slot and reading any poked slot at any point of
the sequence yields the pinned address; the release (Unpin or the unpin of the
owning pinner) then writes 0 into all K poked slots, duplicates included (a
duplicate slot is zeroed twice by the clear loop, harmlessly). -/
theorem poke_fanout_zeroed_on_release (ptr : Nat) (mem : Mem) (ts : List Nat)
    (_hK : ts ≠ []) :
    (∀ pre suff, ts = pre ++ suff →
      ∃ q m1, pokeAll (Pin ptr) mem pre = .ok (q, m1) ∧ ∀ t ∈ pre, m1 t = ptr)
    ∧ (∃ q m1, pokeAll (Pin ptr) mem ts = .ok (q, m1) ∧ (∀ t ∈ ts, m1 t = ptr)
        ∧ ∃ q2 m2 tr, q.Unpin m1 = .ok (q2, m2, tr) ∧ ∀ t ∈ ts, m2 t = 0)
    ∧ (∀ v0 : pinnerData, v0.finished = false → v0.release = true →
        ∃ v1 sp, Pinner.Pin v0 ptr = .ok (v1, sp) ∧ sp.ptr = ptr
        ∧ ∃ v2 m1, scopedPokeAll sp v1 mem ts = .ok (v2, m1) ∧ (∀ t ∈ ts, m1 t = ptr)
        ∧ ∃ v3 m2 tr, v2.unpin m1 = .ok (v3, m2, tr) ∧ ∀ t ∈ ts, m2 t = 0) := by
  refine ⟨?_, ?_, ?_⟩
  · intro pre suff hsplit
    obtain ⟨q, m1, hrun, _, _, _, _, _, hmem⟩ := pokeAll_spec pre (Pin ptr) mem rfl
    exact ⟨q, m1, hrun, fun t ht => by rw [hmem t]; simp [ht, Pin]⟩
  · obtain ⟨q, m1, hrun, hptr, hfin, hrel, _, hrefs, hmem⟩ := pokeAll_spec ts (Pin ptr) mem rfl
    refine ⟨q, m1, hrun, fun t ht => by rw [hmem t]; simp [ht, Pin], ?_⟩
    have hrel2 : q.release = true := by rw [hrel]; rfl
    refine ⟨_, _, _, unpin_spec q m1 hfin hrel2, fun t ht => ?_⟩
    rw [clear_apply]
    have : t ∈ q.refs := by rw [hrefs]; simp [ht]
    simp [this]
  · intro v0 hfin0 hrel0
    have hpin : Pinner.Pin v0 ptr = .ok ({ v0 with pending := v0.pending + 1 }, ⟨ptr⟩) := by
      simp [Pinner.Pin, finishedType.check, hfin0, check_ok_seq]
    obtain ⟨v2, m1, hrun, hfin2, hrel2, _, hrefs2, hmem2⟩ :=
      scopedPokeAll_spec ts ⟨ptr⟩ { v0 with pending := v0.pending + 1 } mem hfin0
    refine ⟨_, _, hpin, rfl, v2, m1, hrun, fun t ht => by rw [hmem2 t]; simp [ht], ?_⟩
    have hrel3 : v2.release = true := by rw [hrel2]; exact hrel0
    refine ⟨_, _, _, pinner_unpin_spec v2 m1 hfin2 hrel3, fun t ht => ?_⟩
    rw [clear_apply]
    have : t ∈ v2.refs := by rw [hrefs2]; simp [ht]
    simp [this]

/-- C1 witness: the fan-out property at address 5, slots 7, 9 and 7 again (a
duplicate, zeroed twice), starting from all-zero memory. -/
theorem poke_fanout_zeroed_on_release_wit :
    ([7, 9, 7] : List Nat) ≠ [] ∧
    ((∀ pre suff, ([7, 9, 7] : List Nat) = pre ++ suff →
      ∃ q m1, pokeAll (Pin 5) mem0 pre = .ok (q, m1) ∧ ∀ t ∈ pre, m1 t = 5)
    ∧ (∃ q m1, pokeAll (Pin 5) mem0 [7, 9, 7] = .ok (q, m1) ∧ (∀ t ∈ [7, 9, 7], m1 t = 5)
        ∧ ∃ q2 m2 tr, q.Unpin m1 = .ok (q2, m2, tr) ∧ ∀ t ∈ [7, 9, 7], m2 t = 0)
    ∧ (∀ v0 : pinnerData, v0.finished = false → v0.release = true →
        ∃ v1 sp, Pinner.Pin v0 5 = .ok (v1, sp) ∧ sp.ptr = 5
        ∧ ∃ v2 m1, scopedPokeAll sp v1 mem0 [7, 9, 7] = .ok (v2, m1) ∧ (∀ t ∈ [7, 9, 7], m1 t = 5)
        ∧ ∃ v3 m2 tr, v2.unpin m1 = .ok (v3, m2, tr) ∧ ∀ t ∈ [7, 9, 7], m2 t = 0)) :=
  ⟨by decide, poke_fanout_zeroed_on_release 5 mem0 [7, 9, 7] (by decide)⟩

/-- Zero value of PinnedPtr, as a never pinned `var p PinnedPtr` in Go: no
address, both mutexes unlocked, no goroutine, no refs, not finished. -/
def zeroPinnedPtr : PinnedPtr :=
  { ptr := 0, release := false, pinnedWorker := false, refs := [], finished := false }

/-- C2 counterexample: the claim says a repeated release is a safe no-op that
never panics, but on the code a second Unpin of the same PinnedPtr reaches
finishedType.check with finished already true and panics with
ErrInvalidPinner: pin address 5, unpin once (which succeeds), unpin again. -/
theorem second_unpin_panics_cex :
    ((Pin 5).Unpin mem0).toOption.map (fun r => r.1.Unpin r.2.1)
      = some (Except.error PGErr.invalidPinner) := rfl

/-- C2 corrected: release is not idempotent. A second Unpin of a PinnedPtr, or
a second unpin of a pinnerData, panics with ErrInvalidPinner because
finishedType.check fires on the finished flag the first release set; and Unpin
of a never pinned zero-value handle panics unlocking the unlocked release
mutex. Only the first release of a pinned handle performs the teardown. -/
theorem release_not_idempotent (p : PinnedPtr) (v : pinnerData) (mem : Mem)
    (hp : p.finished = true) (hv : v.finished = true) :
    p.Unpin mem = .error .invalidPinner
    ∧ v.unpin mem = .error .invalidPinner
    ∧ (∀ m : Mem, zeroPinnedPtr.Unpin m = .error .unlockOfUnlockedMutex) := by
  refine ⟨?_, ?_, fun m => rfl⟩
  · simp [PinnedPtr.Unpin, finishedType.check, hp, check_error_seq]
  · simp [pinnerData.unpin, finishedType.check, hv, check_error_seq]

/-- C2 witness: the corrected statement at a concrete released handle and a
concrete finished pinner. -/
theorem release_not_idempotent_wit :
    (PinnedPtr.mk 5 false false [] true).finished = true
    ∧ (pinnerData.mk false 0 [] true).finished = true
    ∧ ((PinnedPtr.mk 5 false false [] true).Unpin mem0 = .error .invalidPinner
      ∧ (pinnerData.mk false 0 [] true).unpin mem0 = .error .invalidPinner
      ∧ (∀ m : Mem, zeroPinnedPtr.Unpin m = .error .unlockOfUnlockedMutex)) :=
  ⟨rfl, rfl,
    release_not_idempotent (PinnedPtr.mk 5 false false [] true)
      (pinnerData.mk false 0 [] true) mem0 rfl rfl⟩

/-- C5: any Pin or Poke against a released handle or a finished pinner
lifetime panics with ErrInvalidPinner before touching memory (the operations
return the error and no new memory state), and the first successful release
leaves the handle or group permanently finished, so every later Poke or Pin on
it keeps failing the same way. -/
theorem invalid_context_panics (p : PinnedPtr) (v : pinnerData) (mem : Mem)
    (target ptr2 : Nat) (hp : p.finished = true) (hv : v.finished = true) :
    p.Poke mem target = .error .invalidPinner
    ∧ Pinner.Pin v ptr2 = .error .invalidPinner
    ∧ (∀ sp : ScopedPinnedPtr, sp.Poke v mem target = .error .invalidPinner)
    ∧ (∀ (q : PinnedPtr) (m : Mem) r, q.Unpin m = .ok r →
        r.1.finished = true ∧ ∀ (m2 : Mem) (t2 : Nat), r.1.Poke m2 t2 = .error .invalidPinner)
    ∧ (∀ (w : pinnerData) (m : Mem) r, w.unpin m = .ok r →
        r.1.finished = true ∧ ∀ ptr3, Pinner.Pin r.1 ptr3 = .error .invalidPinner) := by
  have poke_err : ∀ (q : PinnedPtr) (m : Mem) (t : Nat), q.finished = true →
      q.Poke m t = .error .invalidPinner := by
    intro q m t hq
    simp [PinnedPtr.Poke, finishedType.check, hq, check_error_seq]
  have pin_err : ∀ (w : pinnerData) (pt : Nat), w.finished = true →
      Pinner.Pin w pt = .error .invalidPinner := by
    intro w pt hw
    simp [Pinner.Pin, finishedType.check, hw, check_error_seq]
  refine ⟨poke_err p mem target hp, pin_err v ptr2 hv, ?_, ?_, ?_⟩
  · intro sp
    simp [ScopedPinnedPtr.Poke, finishedType.check, hv, check_error_seq]
  · intro q m r hok
    have hqfin : q.finished = false := by
      by_contra hcon
      have hq2 : q.finished = true := by revert hcon; cases q.finished <;> simp
      simp [PinnedPtr.Unpin, finishedType.check, hq2, check_error_seq] at hok
    have hrel : q.release = true := by
      by_contra hcon
      have hrel2 : q.release = false := by revert hcon; cases q.release <;> simp
      simp [PinnedPtr.Unpin, finishedType.check, hqfin, hrel2, check_ok_seq] at hok
    rw [unpin_spec q m hqfin hrel] at hok
    injection hok with h2
    subst h2
    exact ⟨rfl, fun m2 t2 => poke_err _ m2 t2 rfl⟩
  · intro w m r hok
    have hwfin : w.finished = false := by
      by_contra hcon
      have hw2 : w.finished = true := by revert hcon; cases w.finished <;> simp
      simp [pinnerData.unpin, finishedType.check, hw2, check_error_seq] at hok
    have hrel : w.release = true := by
      by_contra hcon
      have hrel2 : w.release = false := by revert hcon; cases w.release <;> simp
      simp [pinnerData.unpin, finishedType.check, hwfin, hrel2, check_ok_seq] at hok
    rw [pinner_unpin_spec w m hwfin hrel] at hok
    injection hok with h2
    subst h2
    exact ⟨rfl, fun ptr3 => pin_err _ ptr3 rfl⟩

/-- C5 witness: the invalid-context behaviour at a concrete released handle and
a concrete finished pinner, poking slot 9 and pinning address 3. -/
theorem invalid_context_panics_wit :
    (PinnedPtr.mk 5 false false [] true).finished = true
    ∧ (pinnerData.mk false 0 [] true).finished = true
    ∧ ((PinnedPtr.mk 5 false false [] true).Poke mem0 9 = .error .invalidPinner
      ∧ Pinner.Pin (pinnerData.mk false 0 [] true) 3 = .error .invalidPinner
      ∧ (∀ sp : ScopedPinnedPtr,
          sp.Poke (pinnerData.mk false 0 [] true) mem0 9 = .error .invalidPinner)
      ∧ (∀ (q : PinnedPtr) (m : Mem) r, q.Unpin m = .ok r →
          r.1.finished = true ∧ ∀ (m2 : Mem) (t2 : Nat), r.1.Poke m2 t2 = .error .invalidPinner)
      ∧ (∀ (w : pinnerData) (m : Mem) r, w.unpin m = .ok r →
          r.1.finished = true ∧ ∀ ptr3, Pinner.Pin r.1 ptr3 = .error .invalidPinner)) :=
  ⟨rfl, rfl,
    invalid_context_panics (PinnedPtr.mk 5 false false [] true)
      (pinnerData.mk false 0 [] true) mem0 9 3 rfl rfl⟩

/-- Pinner state exactly as Scope allocates it: release locked, nothing pinned,
not finished. -/
def scopePinner : pinnerData :=
  { release := true, pending := 0, refs := [], finished := false }

/-- C7 counterexample: the claim says unpin resets the group (finished back to
false) so the same value can accept further Pin calls, but running unpin on a
fresh scope pinner leaves finished = true and a subsequent Pin of address 7
panics with ErrInvalidPinner. -/
theorem no_reset_after_unpin_cex :
    ((scopePinner.unpin mem0).toOption.map fun r => (r.1.finished, Pinner.Pin r.1 7))
      = some (true, Except.error PGErr.invalidPinner) := rfl

/-- C7 corrected: after unpin completes on a pinnerData the finished flag
remains true and is never reset, so the very same group value cannot begin a
new pinning lifetime: every further Pin call panics with ErrInvalidPinner.
Re-use happens only through a fresh pinnerData, which Scope allocates on every
call. -/
theorem unpin_leaves_group_finished (v : pinnerData) (mem : Mem)
    (r : pinnerData × Mem × List Event) (h : v.unpin mem = .ok r) :
    r.1.finished = true ∧ ∀ ptr, Pinner.Pin r.1 ptr = .error .invalidPinner := by
  have hvfin : v.finished = false := by
    by_contra hcon
    have hv2 : v.finished = true := by revert hcon; cases v.finished <;> simp
    simp [pinnerData.unpin, finishedType.check, hv2, check_error_seq] at h
  have hrel : v.release = true := by
    by_contra hcon
    have hrel2 : v.release = false := by revert hcon; cases v.release <;> simp
    simp [pinnerData.unpin, finishedType.check, hvfin, hrel2, check_ok_seq] at h
  rw [pinner_unpin_spec v mem hvfin hrel] at h
  injection h with h2
  subst h2
  refine ⟨rfl, fun ptr => ?_⟩
  simp [Pinner.Pin, finishedType.check, check_error_seq]

/-- C7 witness: the corrected statement on the concrete result of unpinning a
fresh scope pinner over all-zero memory. -/
theorem unpin_leaves_group_finished_wit :
    scopePinner.unpin mem0 =
      .ok (pinnerData.mk false 0 [] true, mem0,
           [Event.releaseSignal, Event.releaseConfirm])
    ∧ ((pinnerData.mk false 0 [] true, mem0,
        ([Event.releaseSignal, Event.releaseConfirm] : List Event)).1.finished = true
      ∧ ∀ ptr, Pinner.Pin (pinnerData.mk false 0 [] true, mem0,
          ([Event.releaseSignal, Event.releaseConfirm] : List Event)).1 ptr
            = .error .invalidPinner) :=
  ⟨rfl, unpin_leaves_group_finished scopePinner mem0 _ rfl⟩

/-- C3 counterexample: the claim says the toggle is reference-counted, the
checker stays disabled for the union of two overlapping NoCheck calls and the
original value is restored exactly once after both exit. Run call A and call B
overlapping, with A exiting first, from original value 2: A enters (saves 2,
cell 0), B enters (saves 0, cell 0), A exits (stores 2 back while B is still
inside, so the checker is re-enabled during B), B exits (stores 0, so after
both have exited the cell is 0, not the original 2). -/
theorem nocheck_overlap_cex :
    ncEnter 2 = (2, 0) ∧ ncEnter 0 = (0, 0)
    ∧ ncExit 2 0 = 2 ∧ (2 : Int) ≠ 0
    ∧ ncExit 0 (ncExit 2 0) = 0 ∧ (0 : Int) ≠ 2 := by
  refine ⟨rfl, rfl, rfl, by decide, rfl, by decide⟩

/-- C3 corrected: NoCheck is not reference-counted; it saves the cell with one
swap and restores its own saved value with one unconditional store. Properly
nested or sequential calls restore the original value, but for two overlapping
calls where the first entrant exits first, the exit of the first call writes
the original (nonzero) value back while the second call is still running, and
the exit of the second call then leaves the cell 0 instead of the original
value. -/
theorem nocheck_not_refcounted (c : Int) (hc : c ≠ 0) :
    (ncEnter c).2 = 0
    ∧ (ncEnter ((ncEnter c).2)).2 = 0
    ∧ ncExit (ncEnter c).1 (ncEnter ((ncEnter c).2)).2 = c
    ∧ ncExit (ncEnter c).1 (ncEnter ((ncEnter c).2)).2 ≠ 0
    ∧ ncExit (ncEnter ((ncEnter c).2)).1 (ncExit (ncEnter c).1 (ncEnter ((ncEnter c).2)).2) = 0
    ∧ (NoCheck c none).1 = c := by
  exact ⟨rfl, rfl, rfl, hc, rfl, rfl⟩

/-- C3 witness: the corrected statement at original checker value 2. -/
theorem nocheck_not_refcounted_wit :
    (2 : Int) ≠ 0 ∧
    ((ncEnter 2).2 = 0
    ∧ (ncEnter ((ncEnter 2).2)).2 = 0
    ∧ ncExit (ncEnter 2).1 (ncEnter ((ncEnter 2).2)).2 = 2
    ∧ ncExit (ncEnter 2).1 (ncEnter ((ncEnter 2).2)).2 ≠ 0
    ∧ ncExit (ncEnter ((ncEnter 2).2)).1 (ncExit (ncEnter 2).1 (ncEnter ((ncEnter 2).2)).2) = 0
    ∧ (NoCheck 2 none).1 = 2) :=
  ⟨by decide, nocheck_not_refcounted 2 (by decide)⟩

/-- A run of completed NoCheck calls that starts with the cell 0 leaves it 0:
a normal exit restores the 0 that was saved on entry, a panicking exit leaves
the 0 the entry wrote. -/
lemma runNoChecks_zero (calls : List (Option PGErr)) : runNoChecks 0 calls = 0 := by
  induction calls with
  | nil => rfl
  | cons f calls ih =>
    show runNoChecks (NoCheck 0 f).1 calls = 0
    cases f <;> exact ih

/-- C9: if the callback passed to NoCheck panics, the saved previous cgocheck
value is never written back, because the restoring store is unreachable on the
panic path: the call propagates the panic with the cell still 0, and every
later completed NoCheck call then saves and restores that 0, so the checker
stays disabled from then on. -/
theorem nocheck_panic_disables_forever (c : Int) (e : PGErr) (calls : List (Option PGErr)) :
    NoCheck c (some e) = (0, some e)
    ∧ runNoChecks (NoCheck c (some e)).1 calls = 0 := by
  exact ⟨rfl, runNoChecks_zero calls⟩

/-- Scope body that pins the given address, pokes every slot of ts, and then
panics with the given code, leaving whatever state the pokes produced. -/
def pinPokePanic (ptr : Nat) (ts : List Nat) (e : Nat) (v : pinnerData) (mem : Mem) :
    pinnerData × Mem × Option PGErr :=
  match Pinner.Pin v ptr with
  | .error pe => (v, mem, some pe)
  | .ok (v1, sp) =>
    match scopedPokeAll sp v1 mem ts with
    | .error pe => (v1, mem, some pe)
    | .ok (v2, m2) => (v2, m2, some (.userPanic e))

/-- C10: if the callback passed to Scope panics, Scope propagates the panic
without performing the unpin step: the pinner lifetime is never finished, no
poked escape slot is zeroed (each still holds the pinned address), the release
broadcast is never sent (the release mutex stays locked) and the pending
restraining worker stays registered. -/
theorem scope_panic_skips_unpin (ptr : Nat) (ts : List Nat) (e : Nat) (mem : Mem) :
    (Scope (pinPokePanic ptr ts e) mem).2.2 = some (.userPanic e)
    ∧ (Scope (pinPokePanic ptr ts e) mem).1.finished = false
    ∧ (Scope (pinPokePanic ptr ts e) mem).1.release = true
    ∧ (Scope (pinPokePanic ptr ts e) mem).1.pending = 1
    ∧ (Scope (pinPokePanic ptr ts e) mem).1.refs = ts
    ∧ ∀ t ∈ ts, (Scope (pinPokePanic ptr ts e) mem).2.1 t = ptr := by
  have hpin : Pinner.Pin { release := true, pending := 0, refs := [], finished := false } ptr
      = .ok ({ release := true, pending := 1, refs := [], finished := false }, ⟨ptr⟩) := rfl
  obtain ⟨v2, m2, hrun, hfin, hrel, hpend, hrefs, hmem⟩ :=
    scopedPokeAll_spec ts ⟨ptr⟩ { release := true, pending := 1, refs := [], finished := false }
      mem rfl
  have hscope : Scope (pinPokePanic ptr ts e) mem = (v2, m2, some (.userPanic e)) := by
    simp only [Scope, pinPokePanic, hpin, hrun]
  rw [hscope]
  refine ⟨rfl, hfin, ?_, ?_, ?_, ?_⟩
  · show v2.release = true
    rw [hrel]
  · show v2.pending = 1
    rw [hpend]
  · show v2.refs = ts
    rw [hrefs]
    simp
  · intro t ht
    show m2 t = ptr
    rw [hmem t]
    simp [ht]

/-- Modelled from the spec: the leak-detection destruction hook (the leakPanic
finalizer exercised by TestLeakPanics in ptrguard_leakpanic_test.go) is not
implemented in the sources under src, only referenced by its test, so it is
modelled from the spec failure policy: a handle or group discarded while still
restraining is detected at destruction time and treated as fatal, and a
finalizer runs at most once per object. The state is the number of outstanding
restraining workers and whether destruction already happened. -/
structure LeakHandle where
  pinnedOutstanding : Nat
  destroyed : Bool
deriving DecidableEq

/-- Modelled from the spec: destroying a handle fires the fatal leak hook
exactly when the handle still restrains at destruction time; a handle that was
already destroyed is never finalized again. The second component counts hook
firings. -/
def destroyHandle (h : LeakHandle) (fired : Nat) : LeakHandle × Nat :=
  if h.destroyed then (h, fired)
  else ({ h with destroyed := true },
        if 0 < h.pinnedOutstanding then fired + 1 else fired)

/-- C8: destroying a handle or group that is still pinned fires the
leak-detection hook exactly once: the first destruction increments the firing
count by one, destroying again leaves the count unchanged, and destroying a
handle with no outstanding pins never fires the hook. -/
theorem leak_hook_fires_exactly_once (h : LeakHandle) (fired : Nat)
    (hd : h.destroyed = false) (hp : 0 < h.pinnedOutstanding) :
    (destroyHandle h fired).2 = fired + 1
    ∧ (destroyHandle (destroyHandle h fired).1 (destroyHandle h fired).2).2 = fired + 1
    ∧ ∀ h2 : LeakHandle, h2.destroyed = false → h2.pinnedOutstanding = 0 →
        (destroyHandle h2 fired).2 = fired := by
  refine ⟨?_, ?_, ?_⟩
  · simp [destroyHandle, hd, hp]
  · simp [destroyHandle, hd, hp]
  · intro h2 hd2 hp2
    simp [destroyHandle, hd2, hp2]

/-- C8 witness: a handle with one outstanding pin, never destroyed, zero
firings so far. -/
theorem leak_hook_fires_exactly_once_wit :
    (LeakHandle.mk 1 false).destroyed = false ∧ 0 < (LeakHandle.mk 1 false).pinnedOutstanding
    ∧ ((destroyHandle (LeakHandle.mk 1 false) 0).2 = 0 + 1
      ∧ (destroyHandle (destroyHandle (LeakHandle.mk 1 false) 0).1
          (destroyHandle (LeakHandle.mk 1 false) 0).2).2 = 0 + 1
      ∧ ∀ h2 : LeakHandle, h2.destroyed = false → h2.pinnedOutstanding = 0 →
          (destroyHandle h2 0).2 = 0) :=
  ⟨rfl, by decide, leak_hook_fires_exactly_once (LeakHandle.mk 1 false) 0 rfl (by decide)⟩

/-- Status of one pinning goroutine: still holding its address inside
pinUntilRelease2, or release confirmed (pinUntilRelease2 returned and wg.Done
executed). -/
inductive WStatus where
  | holding
  | confirmed
deriving DecidableEq

/-- Program counter of the releasing caller through pinnerData.unpin (the
PinnedPtr.Unpin teardown has the same statement sequence with one worker):
still in the scope body, finished flag set, clear executed, release unlocked,
and wg.Wait returned. -/
inductive UPC where
  | running
  | finishedSet
  | cleared
  | signaled
  | returned
deriving DecidableEq

/-- Interleaved state of one pinner lifetime: foreign memory, the refsType
list, a ghost list of every slot ever poked, the WaitGroup counter, wg.Add
calls whose goroutine has not been scheduled yet, the goroutine statuses,
whether the release broadcast was sent, and the unpin program counter. -/
structure GSys where
  mem : Mem
  refs : List Nat
  allRefs : List Nat
  pending : Nat
  tokens : Nat
  workers : List WStatus
  released : Bool
  pc : UPC

/-- Fresh pinner lifetime as Scope allocates it. -/
def GSys.init (m : Mem) : GSys :=
  { mem := m, refs := [], allRefs := [], pending := 0, tokens := 0,
    workers := [], released := false, pc := .running }

/-- Small steps of one pinner lifetime at the granularity of the statements of
ptrguard.go: wg.Add(1) inside Pinner.Pin, the goroutine start, a poke, and the
four statements of pinnerData.unpin; a goroutine confirms release (wg.Done)
only after the broadcast, and wg.Wait returns only at counter zero. -/
inductive GStep : GSys → GSys → Prop where
  | wgAdd (s : GSys) : s.pc = .running →
      GStep s { s with pending := s.pending + 1, tokens := s.tokens + 1 }
  | spawn (s : GSys) : s.pc = .running → 0 < s.tokens →
      GStep s { s with tokens := s.tokens - 1, workers := s.workers ++ [.holding] }
  | pokeStep (s : GSys) (ptr target : Nat) : s.pc = .running →
      GStep s { s with refs := s.refs ++ [target], allRefs := s.allRefs ++ [target],
                       mem := fun a => if a = target then ptr else s.mem a }
  | setFinished (s : GSys) : s.pc = .running →
      GStep s { s with pc := .finishedSet }
  | clearStep (s : GSys) : s.pc = .finishedSet →
      GStep s { s with pc := .cleared, refs := [], mem := refsType.clear s.refs s.mem }
  | signal (s : GSys) : s.pc = .cleared →
      GStep s { s with pc := .signaled, released := true }
  | confirm (s : GSys) (l1 l2 : List WStatus) : s.released = true →
      s.workers = l1 ++ .holding :: l2 →
      GStep s { s with workers := l1 ++ .confirmed :: l2, pending := s.pending - 1 }
  | ret (s : GSys) : s.pc = .signaled → s.pending = 0 →
      GStep s { s with pc := .returned }

/-- Reachability of a lifetime state from a fresh pinner over memory m. -/
def Reachable (m : Mem) (s : GSys) : Prop :=
  Relation.ReflTransGen GStep (GSys.init m) s

/-- Number of goroutines still holding their address. -/
def holdingCount : List WStatus → Nat
  | [] => 0
  | .holding :: ws => holdingCount ws + 1
  | .confirmed :: ws => holdingCount ws

lemma holdingCount_append (xs ys : List WStatus) :
    holdingCount (xs ++ ys) = holdingCount xs + holdingCount ys := by
  induction xs with
  | nil => simp [holdingCount]
  | cons x xs ih =>
    cases x <;> simp [holdingCount, ih] <;> omega

lemma holdingCount_zero_all_confirmed (ws : List WStatus) (h : holdingCount ws = 0) :
    ∀ w ∈ ws, w = WStatus.confirmed := by
  induction ws with
  | nil => simp
  | cons x ws ih =>
    cases x with
    | holding => simp [holdingCount] at h
    | confirmed =>
      intro w hw
      rcases List.mem_cons.mp hw with h1 | h1
      · rw [h1]
      · exact ih (by simpa [holdingCount] using h) w h1

lemma holding_mem_pos (ws : List WStatus) (h : WStatus.holding ∈ ws) :
    0 < holdingCount ws := by
  induction ws with
  | nil => simp at h
  | cons x ws ih =>
    cases x with
    | holding => simp [holdingCount]
    | confirmed =>
      rcases List.mem_cons.mp h with h1 | h1
      · exact absurd h1 (by simp)
      · simpa [holdingCount] using ih h1

/-- Inductive invariant of one pinner lifetime: the WaitGroup counter counts
unscheduled Add calls plus goroutines still holding; the broadcast has happened
exactly from the signal point on; until clear runs the refs list is the full
poke history; from clear on every slot ever poked reads 0; and wg.Wait has
returned only with the counter at zero. -/
def GInv (s : GSys) : Prop :=
  s.pending = s.tokens + holdingCount s.workers
  ∧ (s.released = true ↔ (s.pc = .signaled ∨ s.pc = .returned))
  ∧ (s.pc = .running ∨ s.pc = .finishedSet → s.refs = s.allRefs)
  ∧ ((s.pc = .cleared ∨ s.pc = .signaled ∨ s.pc = .returned) →
      s.refs = [] ∧ ∀ a ∈ s.allRefs, s.mem a = 0)
  ∧ (s.pc = .returned → s.pending = 0)

lemma ginv_init (m : Mem) : GInv (GSys.init m) := by
  refine ⟨rfl, by simp [GSys.init], by simp [GSys.init], by simp [GSys.init], by simp [GSys.init]⟩

lemma ginv_step {s s2 : GSys} (hinv : GInv s) (hstep : GStep s s2) : GInv s2 := by
  obtain ⟨h1, h2, h3, h4, h5⟩ := hinv
  cases hstep with
  | wgAdd hpc =>
    refine ⟨by simp [h1]; omega, by simpa using h2, by simpa using h3, by simpa using h4,
      by simp [hpc]⟩
  | spawn hpc htok =>
    refine ⟨?_, by simpa using h2, by simpa using h3, by simpa using h4, by simp [hpc]⟩
    simp [holdingCount_append, holdingCount, h1]
    omega
  | pokeStep ptr target hpc =>
    refine ⟨h1, by simpa using h2, ?_, by simp [hpc], by simp [hpc]⟩
    intro h
    simp [h3 h]
  | setFinished hpc =>
    have hrel : s.released = false := by
      cases hr : s.released
      · rfl
      · rcases h2.mp hr with h | h <;> rw [hpc] at h <;> exact absurd h (by simp)
    refine ⟨h1, by simp [hrel], ?_, by simp, by simp⟩
    intro _
    exact h3 (Or.inl hpc)
  | clearStep hpc =>
    have hrel : s.released = false := by
      cases hr : s.released
      · rfl
      · rcases h2.mp hr with h | h <;> rw [hpc] at h <;> exact absurd h (by simp)
    refine ⟨h1, by simp [hrel], by simp, ?_, by simp⟩
    intro _
    refine ⟨rfl, ?_⟩
    intro a ha
    show refsType.clear s.refs s.mem a = 0
    rw [clear_apply]
    have ha2 : a ∈ s.allRefs := ha
    have : a ∈ s.refs := by rw [h3 (Or.inr hpc)]; exact ha2
    simp [this]
  | signal hpc =>
    refine ⟨h1, by simp, by simp, ?_, by simp⟩
    intro _
    exact h4 (Or.inl hpc)
  | confirm l1 l2 hrel hw =>
    have hcount : holdingCount s.workers = holdingCount l1 + holdingCount l2 + 1 := by
      rw [hw, holdingCount_append]
      simp only [holdingCount]
      omega
    have hpend : 0 < s.pending := by omega
    refine ⟨?_, by simpa using h2, by simpa using h3, ?_, ?_⟩
    · simp [holdingCount_append, holdingCount]
      omega
    · intro h
      obtain ⟨ha, hb⟩ := h4 (by simpa using h)
      exact ⟨ha, hb⟩
    · intro h
      have := h5 (by simpa using h)
      omega
  | ret hpc hpend =>
    have hrel : s.released = true := h2.mpr (Or.inl hpc)
    refine ⟨h1, by simp [hrel], by simp, ?_, by simpa using hpend⟩
    intro _
    exact h4 (Or.inr (Or.inl hpc))

/-- Every reachable lifetime state satisfies the invariant. -/
lemma reachable_ginv {m : Mem} {s : GSys} (h : Reachable m s) : GInv s := by
  induction h with
  | refl => exact ginv_init m
  | tail _ hstep ih => exact ginv_step ih hstep

/-- C4: the pending count is incremented (wg.Add) before each restraining
goroutine is started and decremented only when that goroutine confirms release,
so in every reachable state the counter equals the unscheduled Add calls plus
the goroutines still holding; unpin has returned from wg.Wait only with the
counter at zero and every started goroutine confirmed, and while any goroutine
still holds (for example N-1 of N confirmed), the wait cannot have returned. -/
theorem pending_count_drains (m : Mem) (s : GSys) (h : Reachable m s) :
    s.pending = s.tokens + holdingCount s.workers
    ∧ (s.pc = .returned → s.pending = 0 ∧ ∀ w ∈ s.workers, w = WStatus.confirmed)
    ∧ (WStatus.holding ∈ s.workers → s.pc ≠ .returned) := by
  obtain ⟨h1, _, _, _, h5⟩ := reachable_ginv h
  refine ⟨h1, ?_, ?_⟩
  · intro hret
    have hp := h5 hret
    refine ⟨hp, holdingCount_zero_all_confirmed s.workers (by omega)⟩
  · intro hmem hret
    have hp := h5 hret
    have := holding_mem_pos s.workers hmem
    omega

/-- Positions in the teardown event trace: zeroings fill the front, the release
signal sits at the length of the refs list, the confirmation right after it. -/
lemma unpinTrace_index (R : List Nat) (i : Nat) (e : Event)
    (h : (R.map Event.zeroSlot ++ [Event.releaseSignal, Event.releaseConfirm])[i]? = some e) :
    (e = Event.releaseSignal → i = R.length)
    ∧ (e = Event.releaseConfirm → i = R.length + 1)
    ∧ ∀ a, e = Event.zeroSlot a → i < R.length := by
  induction R generalizing i with
  | nil =>
    cases i with
    | zero =>
      simp at h
      subst h
      exact ⟨fun _ => rfl, fun he => by simp at he, fun a he => by simp at he⟩
    | succ i =>
      cases i with
      | zero =>
        simp at h
        subst h
        exact ⟨fun he => by simp at he, fun _ => rfl, fun a he => by simp at he⟩
      | succ i => simp at h
  | cons r R ih =>
    cases i with
    | zero =>
      simp at h
      subst h
      exact ⟨fun he => by simp at he, fun he => by simp at he, fun a _ => by simp⟩
    | succ i =>
      have h2 : (R.map Event.zeroSlot ++ [Event.releaseSignal, Event.releaseConfirm])[i]? = some e := by
        simpa using h
      obtain ⟨ha, hb, hc⟩ := ih i h2
      refine ⟨?_, ?_, ?_⟩
      · intro he
        have := ha he
        simp
        omega
      · intro he
        have := hb he
        simp
        omega
      · intro a he
        have := hc a he
        simp
        omega

/-- C6: on every release (Unpin of a standalone handle, or unpin of a pinner)
the zeroing of escape slots strictly precedes the release signal, and the
releasing call returns only after the release confirmations arrive. For the
interleaved lifetime: in every reachable state, once the broadcast has been
sent every slot ever poked already reads 0, and wg.Wait has returned only with
the counter at zero and every goroutine confirmed. For the standalone Unpin:
in the event trace of every successful Unpin, every slot zeroing precedes the
release signal, which precedes the release confirmation the call waits on. -/
theorem clear_precedes_release_signal (m : Mem) (s : GSys) (h : Reachable m s) :
    ((s.released = true → ∀ a ∈ s.allRefs, s.mem a = 0)
    ∧ (s.pc = .returned → s.pending = 0 ∧ ∀ w ∈ s.workers, w = WStatus.confirmed))
    ∧ (∀ (p : PinnedPtr) (pm : Mem) r, p.Unpin pm = .ok r →
        (∀ (i j a : Nat), r.2.2[i]? = some (Event.zeroSlot a) →
          r.2.2[j]? = some Event.releaseSignal → i < j)
        ∧ (∀ (i j : Nat), r.2.2[i]? = some Event.releaseSignal →
          r.2.2[j]? = some Event.releaseConfirm → i < j)) := by
  obtain ⟨h1, h2, _, h4, h5⟩ := reachable_ginv h
  refine ⟨⟨?_, ?_⟩, ?_⟩
  · intro hrel
    have hpc := h2.mp hrel
    exact (h4 (by tauto)).2
  · intro hret
    have hp := h5 hret
    exact ⟨hp, holdingCount_zero_all_confirmed s.workers (by omega)⟩
  · intro p pm r hok
    have hpfin : p.finished = false := by
      by_contra hcon
      have hp2 : p.finished = true := by revert hcon; cases p.finished <;> simp
      simp [PinnedPtr.Unpin, finishedType.check, hp2, check_error_seq] at hok
    have hprel : p.release = true := by
      by_contra hcon
      have hrel2 : p.release = false := by revert hcon; cases p.release <;> simp
      simp [PinnedPtr.Unpin, finishedType.check, hpfin, hrel2, check_ok_seq] at hok
    rw [unpin_spec p pm hpfin hprel] at hok
    injection hok with hok2
    subst hok2
    constructor
    · intro i j a hi hj
      have hlti := (unpinTrace_index p.refs i _ hi).2.2 a rfl
      have heqj := (unpinTrace_index p.refs j _ hj).1 rfl
      omega
    · intro i j hi hj
      have heqi := (unpinTrace_index p.refs i _ hi).1 rfl
      have heqj := (unpinTrace_index p.refs j _ hj).2.1 rfl
      omega

/-- Final state of a full demonstration lifetime: one pin added and started,
teardown run to completion with the goroutine confirmed. -/
def gsF4 : GSys :=
  GSys.mk mem0 [] [] 0 0 [WStatus.confirmed] true .returned

lemma reach_gsF4 : Reachable mem0 gsF4 := by
  have t1 : GStep (GSys.init mem0) (GSys.mk mem0 [] [] 1 1 [] false .running) :=
    GStep.wgAdd _ rfl
  have t2 : GStep (GSys.mk mem0 [] [] 1 1 [] false .running)
      (GSys.mk mem0 [] [] 1 0 [WStatus.holding] false .running) :=
    GStep.spawn _ rfl (by decide)
  have t3 : GStep (GSys.mk mem0 [] [] 1 0 [WStatus.holding] false .running)
      (GSys.mk mem0 [] [] 1 0 [WStatus.holding] false .finishedSet) :=
    GStep.setFinished _ rfl
  have t4 : GStep (GSys.mk mem0 [] [] 1 0 [WStatus.holding] false .finishedSet)
      (GSys.mk (refsType.clear [] mem0) [] [] 1 0 [WStatus.holding] false .cleared) :=
    GStep.clearStep _ rfl
  have t5 : GStep (GSys.mk (refsType.clear [] mem0) [] [] 1 0 [WStatus.holding] false .cleared)
      (GSys.mk (refsType.clear [] mem0) [] [] 1 0 [WStatus.holding] true .signaled) :=
    GStep.signal _ rfl
  have t6 : GStep (GSys.mk (refsType.clear [] mem0) [] [] 1 0 [WStatus.holding] true .signaled)
      (GSys.mk (refsType.clear [] mem0) [] [] 0 0 [WStatus.confirmed] true .signaled) :=
    GStep.confirm _ [] [] rfl rfl
  have t7 : GStep (GSys.mk (refsType.clear [] mem0) [] [] 0 0 [WStatus.confirmed] true .signaled)
      gsF4 :=
    GStep.ret _ rfl rfl
  exact .tail (.tail (.tail (.tail (.tail (.tail (.single t1) t2) t3) t4) t5) t6) t7

/-- C4 witness: the draining property at the final state of a concrete
lifetime with one pin, fully torn down. -/
theorem pending_count_drains_wit :
    Reachable mem0 gsF4
    ∧ (gsF4.pending = gsF4.tokens + holdingCount gsF4.workers
      ∧ (gsF4.pc = .returned → gsF4.pending = 0 ∧ ∀ w ∈ gsF4.workers, w = WStatus.confirmed)
      ∧ (WStatus.holding ∈ gsF4.workers → gsF4.pc ≠ .returned)) :=
  ⟨reach_gsF4, pending_count_drains mem0 gsF4 reach_gsF4⟩

/-- Lifetime state just after the release broadcast of a run that poked
address 5 into slot 7: the slot is already zeroed. -/
def gsF6 : GSys :=
  GSys.mk (refsType.clear [7] (fun a => if a = 7 then 5 else mem0 a)) [] [7] 0 0 [] true .signaled

lemma reach_gsF6 : Reachable mem0 gsF6 := by
  have t1 : GStep (GSys.init mem0)
      (GSys.mk (fun a => if a = 7 then 5 else mem0 a) [7] [7] 0 0 [] false .running) :=
    GStep.pokeStep _ 5 7 rfl
  have t2 : GStep (GSys.mk (fun a => if a = 7 then 5 else mem0 a) [7] [7] 0 0 [] false .running)
      (GSys.mk (fun a => if a = 7 then 5 else mem0 a) [7] [7] 0 0 [] false .finishedSet) :=
    GStep.setFinished _ rfl
  have t3 : GStep (GSys.mk (fun a => if a = 7 then 5 else mem0 a) [7] [7] 0 0 [] false .finishedSet)
      (GSys.mk (refsType.clear [7] (fun a => if a = 7 then 5 else mem0 a)) [] [7] 0 0 [] false .cleared) :=
    GStep.clearStep _ rfl
  have t4 : GStep
      (GSys.mk (refsType.clear [7] (fun a => if a = 7 then 5 else mem0 a)) [] [7] 0 0 [] false .cleared)
      gsF6 :=
    GStep.signal _ rfl
  exact .tail (.tail (.tail (.single t1) t2) t3) t4

/-- C6 witness: the ordering property at a concrete lifetime state where the
broadcast was just sent after poking slot 7. -/
theorem clear_precedes_release_signal_wit :
    Reachable mem0 gsF6
    ∧ (((gsF6.released = true → ∀ a ∈ gsF6.allRefs, gsF6.mem a = 0)
      ∧ (gsF6.pc = .returned → gsF6.pending = 0 ∧ ∀ w ∈ gsF6.workers, w = WStatus.confirmed))
      ∧ (∀ (p : PinnedPtr) (pm : Mem) r, p.Unpin pm = .ok r →
          (∀ (i j a : Nat), r.2.2[i]? = some (Event.zeroSlot a) →
            r.2.2[j]? = some Event.releaseSignal → i < j)
          ∧ (∀ (i j : Nat), r.2.2[i]? = some Event.releaseSignal →
            r.2.2[j]? = some Event.releaseConfirm → i < j))) :=
  ⟨reach_gsF6, clear_precedes_release_signal mem0 gsF6 reach_gsF6⟩

end PtrGuard
